import Mathlib

/-!
# Verification of the phone-number ingestion bot (mybot.py)

Shallow embedding of the ingestion, validation, deduplication and
import/export logic of `mybot.py`. Strings are modelled as `List Char`
(the ASCII fragment that the phone-number domain uses); the SQLite
`clients` table is modelled as a `List ClientRecord` in insertion order,
with its `UNIQUE` constraint on `phone_number` modelled explicitly in
the insert operation.
-/

namespace MyBot

/-- Model of Python whitespace as stripped by `str.strip()` (ASCII fragment:
space, tab, newline, carriage return, vertical tab, form feed). -/
def pySpace (c : Char) : Bool :=
  c.toNat == 32 || c.toNat == 9 || c.toNat == 10 || c.toNat == 13 ||
  c.toNat == 11 || c.toNat == 12

/-- Model of a decimal digit character (ASCII `'0'`–`'9'`), as tested by
Python's `str.isdigit` on the ASCII fragment and matched by `\d`. -/
def isDig (c : Char) : Bool :=
  48 ≤ c.toNat && c.toNat ≤ 57

/-- Model of Python `s.isdigit()`: true iff `s` is nonempty and every
character is a decimal digit. -/
def pyIsdigit (s : List Char) : Bool :=
  !s.isEmpty && s.all isDig

/-- Model of Python `s.strip()`: drop whitespace from both ends. -/
def pyStrip (s : List Char) : List Char :=
  ((s.dropWhile pySpace).reverse.dropWhile pySpace).reverse

/-- Model of Python `s.startswith("+")`. -/
def startsWithPlus (s : List Char) : Bool :=
  match s with
  | [] => false
  | c :: _ => c == '+'

/-- The format check applied by `handle_message` and `batch_input`
(mybot.py lines 95 and 137):
`text.startswith("+") and text[1:].isdigit() and 7 <= len(text[1:]) <= 15`. -/
def validNumber (s : List Char) : Bool :=
  startsWithPlus s && pyIsdigit (s.drop 1) &&
    decide (7 ≤ (s.drop 1).length) && decide ((s.drop 1).length ≤ 15)

/-- The format rule as the spec words it: a leading `'+'` followed by
7 to 15 decimal digits and nothing else (the regex `^\+\d\x7b7,15\x7d$`).
Written from the spec's words, to be compared with `validNumber`. -/
def specRegexMatch (s : List Char) : Bool :=
  match s with
  | [] => false
  | c :: rest =>
    c == '+' && rest.all isDig && decide (7 ≤ rest.length) &&
      decide (rest.length ≤ 15)

/-- A row of the SQLite `clients` table (and equally a row of the
export/import spreadsheet): `username`, `phone_number`, `added_time`. -/
structure ClientRecord where
  username : List Char
  phone_number : List Char
  added_time : List Char
deriving DecidableEq, Repr

/-- The phone-number column of the store. -/
def phones (db : List ClientRecord) : List (List Char) :=
  db.map (fun r => r.phone_number)

/-- `number_exists` (mybot.py lines 31–38): the
`SELECT 1 FROM clients WHERE phone_number = ?` existence query. -/
def number_exists (db : List ClientRecord) (phone_number : List Char) : Bool :=
  db.any (fun r => r.phone_number == phone_number)

/-- The raw SQL `INSERT INTO clients` under the table's
`phone_number TEXT UNIQUE` constraint (mybot.py lines 22–26): the insert
fails with an `IntegrityError` exactly when a row with the same
`phone_number` is already present; otherwise the row is appended. -/
def clientsInsert (db : List ClientRecord) (r : ClientRecord) :
    Except Unit (List ClientRecord) :=
  if number_exists db r.phone_number then Except.error ()
  else Except.ok (db ++ [r])

/-- `add_number` (mybot.py lines 40–52): try the constrained insert and
swallow the `IntegrityError` on duplicates. The Python function has no
`return` statement, so its returned value is always `None`; we record the
returned value as an `Option Bool` (always `none`) so that it can be
compared with the spec's `insertIfAbsent(record) -> bool`. -/
def add_number (db : List ClientRecord)
    (username phone_number added_time : List Char) :
    List ClientRecord × Option Bool :=
  match clientsInsert db ⟨username, phone_number, added_time⟩ with
  | Except.ok db2 => (db2, none)
  | Except.error _ => (db, none)

/-- The store operation as the spec words it:
`insertIfAbsent(record) -> bool` — attempts insertion and returns whether
the insertion happened. Written from the spec's words, to be compared with
`add_number`. -/
def specInsertIfAbsent (db : List ClientRecord) (r : ClientRecord) :
    List ClientRecord × Bool :=
  if number_exists db r.phone_number then (db, false)
  else (db ++ [r], true)

/-- `INSERT OR IGNORE INTO clients` (mybot.py line 69): the constrained
insert with the constraint violation ignored. -/
def insertOrIgnore (db : List ClientRecord) (r : ClientRecord) :
    List ClientRecord :=
  match clientsInsert db r with
  | Except.ok db2 => db2
  | Except.error _ => db

/-- `export_clients` (mybot.py lines 54–59): `SELECT * FROM clients`
dumped to a spreadsheet — the file's rows are exactly the store's records
in order. -/
def export_clients (db : List ClientRecord) : List ClientRecord :=
  db

/-- `import_data` (mybot.py lines 61–76). The spreadsheet argument is
`none` when `pd.read_excel`/column access raises (a file that cannot be
parsed into the expected columns), in which case the exception is caught,
the failure message is returned and the transaction is never committed;
otherwise every row is fed through `INSERT OR IGNORE` and the success
message is returned. The `Bool` component models which of the two
messages came back (`true` for the success message). -/
def import_data (file : Option (List ClientRecord)) (db : List ClientRecord) :
    List ClientRecord × Bool :=
  match file with
  | none => (db, false)
  | some rows => (rows.foldl insertOrIgnore db, true)

/-- The three user-visible classifications of a single submission
(mybot.py lines 96–111): the invalid-format reply, the already-exists
reply echoing the number, and the saved reply echoing the number. -/
inductive Outcome where
  | invalid : Outcome
  | duplicate : List Char → Outcome
  | added : List Char → Outcome
deriving DecidableEq, Repr

/-- `handle_message` (mybot.py lines 89–111): strip the raw text, reject
on format failure, otherwise classify against the store and persist on
the fresh path. Returns the updated store and the reply classification. -/
def handle_message (db : List ClientRecord)
    (username added_time text : List Char) : List ClientRecord × Outcome :=
  let t := pyStrip text
  if !validNumber t then
    (db, Outcome.invalid)
  else if number_exists db t then
    (db, Outcome.duplicate t)
  else
    ((add_number db username t added_time).1, Outcome.added t)

/-- The result of `batch_input`: the final store and the three
partitions `added_list`, `exists_list`, `invalid_list`, each in
submission order. -/
structure BatchOut where
  db : List ClientRecord
  added_list : List (List Char)
  exists_list : List (List Char)
  invalid_list : List (List Char)
deriving DecidableEq, Repr

/-- The loop of `batch_input` (mybot.py lines 134–148): each token is
stripped and validated; valid tokens are checked with `SELECT 1` on the
live connection — which sees the rows inserted earlier in the same
batch — and inserted with the shared `username`/`added_time` when absent.
All entries recorded in the partitions are the stripped tokens. -/
def batchRun (username added_time : List Char) (db : List ClientRecord) :
    List (List Char) → BatchOut
  | [] => ⟨db, [], [], []⟩
  | numRaw :: rest =>
    let num := pyStrip numRaw
    if validNumber num then
      if number_exists db num then
        let r := batchRun username added_time db rest
        ⟨r.db, r.added_list, num :: r.exists_list, r.invalid_list⟩
      else
        let r := batchRun username added_time
          (db ++ [⟨username, num, added_time⟩]) rest
        ⟨r.db, num :: r.added_list, r.exists_list, r.invalid_list⟩
    else
      let r := batchRun username added_time db rest
      ⟨r.db, r.added_list, r.exists_list, num :: r.invalid_list⟩

/-- The stripped, format-valid tokens of a batch, in submission order:
the multiset of entries that the batch classifies as added or duplicate. -/
def stripValid (nums : List (List Char)) : List (List Char) :=
  (nums.map pyStrip).filter validNumber

/-- Boolean version of the format invariant: every persisted record has a
format-valid phone number. -/
def formatInv (db : List ClientRecord) : Bool :=
  db.all (fun r => validNumber r.phone_number)

/-! ## Basic lemmas about the character-level model -/

theorem isDig_not_space {c : Char} (h : isDig c = true) : pySpace c = false := by
  simp only [isDig, Bool.and_eq_true, decide_eq_true_eq] at h
  simp only [pySpace, Bool.or_eq_false_iff, beq_eq_false_iff_ne, ne_eq]
  omega

theorem plus_not_space : pySpace '+' = false := by decide

theorem dropWhile_append_of_all {p : Char → Bool} {w l : List Char}
    (h : ∀ c ∈ w, p c = true) :
    List.dropWhile p (w ++ l) = List.dropWhile p l := by
  induction w with
  | nil => simp
  | cons a w ih =>
    simp only [List.cons_append, List.dropWhile_cons]
    rw [h a (by simp), if_pos rfl]
    exact ih (fun c hc => h c (by simp [hc]))

theorem dropWhile_of_head_false {p : Char → Bool} {a : Char} {l : List Char}
    (h : p a = false) : List.dropWhile p (a :: l) = a :: l := by
  simp [List.dropWhile_cons, h]

/-- The shape of a format-valid string: a `'+'` followed by 7–15 digits. -/
theorem validNumber_shape {s : List Char} (h : validNumber s = true) :
    ∃ rest, s = '+' :: rest ∧ rest.all isDig = true ∧
      7 ≤ rest.length ∧ rest.length ≤ 15 := by
  match s with
  | [] => simp [validNumber, startsWithPlus] at h
  | c :: rest =>
    simp only [validNumber, startsWithPlus, pyIsdigit, List.drop_succ_cons,
      List.drop_zero, Bool.and_eq_true, beq_iff_eq, decide_eq_true_eq,
      Bool.not_eq_true'] at h
    exact ⟨rest, by rw [h.1.1.1], h.1.1.2.2, h.1.2, h.2⟩

/-- Stripping a format-valid string surrounded by whitespace yields
exactly the valid core. -/
theorem pyStrip_sandwich {w1 w2 num : List Char}
    (h1 : ∀ c ∈ w1, pySpace c = true) (h2 : ∀ c ∈ w2, pySpace c = true)
    (hv : validNumber num = true) : pyStrip (w1 ++ num ++ w2) = num := by
  obtain ⟨rest, hnum, hdig, hlen, -⟩ := validNumber_shape hv
  have hrestne : rest ≠ [] := by
    intro hr
    rw [hr] at hlen
    simp at hlen
  obtain ⟨d, rrev, hrev⟩ : ∃ d rrev, rest.reverse = d :: rrev := by
    cases hr : rest.reverse with
    | nil => exact absurd (by simpa using congrArg List.reverse hr) hrestne
    | cons d rrev => exact ⟨d, rrev, rfl⟩
  have hd : isDig d = true := by
    have : d ∈ rest := by
      rw [← List.mem_reverse, hrev]
      simp
    exact (List.all_eq_true.mp hdig) d this
  have hw2r : ∀ c ∈ w2.reverse, pySpace c = true :=
    fun c hc => h2 c (List.mem_reverse.mp hc)
  rw [hnum]
  unfold pyStrip
  rw [List.append_assoc, dropWhile_append_of_all h1,
    List.cons_append, dropWhile_of_head_false plus_not_space,
    List.reverse_cons, List.reverse_append, List.append_assoc,
    dropWhile_append_of_all hw2r, hrev, List.cons_append,
    dropWhile_of_head_false (isDig_not_space hd),
    ← List.cons_append, ← hrev, List.reverse_append, List.reverse_reverse]
  simp

/-- A format-valid string has no surrounding whitespace: stripping it is
the identity. -/
theorem pyStrip_valid {num : List Char} (hv : validNumber num = true) :
    pyStrip num = num := by
  have h : pyStrip ([] ++ num ++ []) = num :=
    pyStrip_sandwich (fun c hc => by simp at hc) (fun c hc => by simp at hc) hv
  simpa using h

/-! ## Lemmas about the record store -/

theorem number_exists_iff {db : List ClientRecord} {p : List Char} :
    number_exists db p = true ↔ p ∈ phones db := by
  simp only [number_exists, phones, List.any_eq_true, beq_iff_eq,
    List.mem_map]

theorem number_exists_append {db l : List ClientRecord} {p : List Char} :
    number_exists (db ++ l) p = (number_exists db p || number_exists l p) := by
  simp [number_exists, List.any_append]

theorem number_exists_singleton {r : ClientRecord} {p : List Char} :
    number_exists [r] p = (r.phone_number == p) := by
  simp [number_exists]

theorem phones_append {db l : List ClientRecord} :
    phones (db ++ l) = phones db ++ phones l := by
  simp [phones]

/-! ## Lemmas about single-message ingestion -/

/-- Submitting a valid, absent number persists it and reports `added`. -/
theorem handle_message_added {db : List ClientRecord} {u t p : List Char}
    (hv : validNumber p = true) (hab : number_exists db p = false) :
    handle_message db u t p = (db ++ [⟨u, p, t⟩], Outcome.added p) := by
  simp [handle_message, add_number, clientsInsert, pyStrip_valid hv, hv, hab]

/-- Submitting a valid, present number leaves the store unchanged and
reports `duplicate`. -/
theorem handle_message_duplicate {db : List ClientRecord} {u t p : List Char}
    (hv : validNumber p = true) (hex : number_exists db p = true) :
    handle_message db u t p = (db, Outcome.duplicate p) := by
  simp [handle_message, pyStrip_valid hv, hv, hex]

/-- Submitting a format-invalid string (after stripping) leaves the store
unchanged and reports `invalid`. -/
theorem handle_message_invalid {db : List ClientRecord} {u t s : List Char}
    (hv : validNumber (pyStrip s) = false) :
    handle_message db u t s = (db, Outcome.invalid) := by
  simp [handle_message, hv]

/-! ## Lemmas about `INSERT OR IGNORE` and import -/

theorem insertOrIgnore_of_exists {db : List ClientRecord} {r : ClientRecord}
    (h : number_exists db r.phone_number = true) :
    insertOrIgnore db r = db := by
  simp [insertOrIgnore, clientsInsert, h]

theorem insertOrIgnore_of_absent {db : List ClientRecord} {r : ClientRecord}
    (h : number_exists db r.phone_number = false) :
    insertOrIgnore db r = db ++ [r] := by
  simp [insertOrIgnore, clientsInsert, h]

theorem number_exists_insertOrIgnore_self {db : List ClientRecord}
    {r : ClientRecord} :
    number_exists (insertOrIgnore db r) r.phone_number = true := by
  by_cases h : number_exists db r.phone_number = true
  · rw [insertOrIgnore_of_exists h]
    exact h
  · rw [insertOrIgnore_of_absent (Bool.not_eq_true _ ▸ h)]
    simp [number_exists_append, number_exists_singleton]

theorem number_exists_insertOrIgnore_mono {db : List ClientRecord}
    {r : ClientRecord} {p : List Char}
    (h : number_exists db p = true) :
    number_exists (insertOrIgnore db r) p = true := by
  by_cases hr : number_exists db r.phone_number = true
  · rwa [insertOrIgnore_of_exists hr]
  · rw [insertOrIgnore_of_absent (Bool.not_eq_true _ ▸ hr)]
    simp [number_exists_append, h]

theorem number_exists_foldl_mono {rows : List ClientRecord}
    {db : List ClientRecord} {p : List Char}
    (h : number_exists db p = true) :
    number_exists (rows.foldl insertOrIgnore db) p = true := by
  induction rows generalizing db with
  | nil => exact h
  | cons r rows ih =>
    exact ih (number_exists_insertOrIgnore_mono h)

/-- After an import pass, every imported row's phone number is present. -/
theorem foldl_insertOrIgnore_mem {rows : List ClientRecord}
    {db : List ClientRecord} :
    ∀ r ∈ rows, number_exists (rows.foldl insertOrIgnore db)
      r.phone_number = true := by
  induction rows generalizing db with
  | nil => intro r hr; simp at hr
  | cons a rows ih =>
    intro r hr
    rcases List.mem_cons.mp hr with rfl | hr2
    · rw [List.foldl_cons]
      exact number_exists_foldl_mono number_exists_insertOrIgnore_self
    · rw [List.foldl_cons]
      exact ih r hr2

/-- An import pass over rows whose phone numbers are all present is a
no-op. -/
theorem foldl_insertOrIgnore_noop {rows : List ClientRecord}
    {db : List ClientRecord}
    (h : ∀ r ∈ rows, number_exists db r.phone_number = true) :
    rows.foldl insertOrIgnore db = db := by
  induction rows with
  | nil => rfl
  | cons a rows ih =>
    have ha := h a (by simp)
    simp only [List.foldl_cons, insertOrIgnore_of_exists ha]
    exact ih (fun r hr => h r (by simp [hr]))

/-! ## Lemmas about batch ingestion -/

theorem batchRun_nil {u t : List Char} {db : List ClientRecord} :
    batchRun u t db [] = ⟨db, [], [], []⟩ := rfl

theorem batchRun_cons_dup {u t numRaw : List Char} {db : List ClientRecord}
    {rest : List (List Char)}
    (hv : validNumber (pyStrip numRaw) = true)
    (he : number_exists db (pyStrip numRaw) = true) :
    batchRun u t db (numRaw :: rest) =
      ⟨(batchRun u t db rest).db, (batchRun u t db rest).added_list,
        pyStrip numRaw :: (batchRun u t db rest).exists_list,
        (batchRun u t db rest).invalid_list⟩ := by
  simp [batchRun, hv, he]

theorem batchRun_cons_add {u t numRaw : List Char} {db : List ClientRecord}
    {rest : List (List Char)}
    (hv : validNumber (pyStrip numRaw) = true)
    (he : number_exists db (pyStrip numRaw) = false) :
    batchRun u t db (numRaw :: rest) =
      ⟨(batchRun u t (db ++ [⟨u, pyStrip numRaw, t⟩]) rest).db,
        pyStrip numRaw ::
          (batchRun u t (db ++ [⟨u, pyStrip numRaw, t⟩]) rest).added_list,
        (batchRun u t (db ++ [⟨u, pyStrip numRaw, t⟩]) rest).exists_list,
        (batchRun u t (db ++ [⟨u, pyStrip numRaw, t⟩]) rest).invalid_list⟩ := by
  simp [batchRun, hv, he]

theorem batchRun_cons_invalid {u t numRaw : List Char}
    {db : List ClientRecord} {rest : List (List Char)}
    (hv : validNumber (pyStrip numRaw) = false) :
    batchRun u t db (numRaw :: rest) =
      ⟨(batchRun u t db rest).db, (batchRun u t db rest).added_list,
        (batchRun u t db rest).exists_list,
        pyStrip numRaw :: (batchRun u t db rest).invalid_list⟩ := by
  simp [batchRun, hv]

theorem stripValid_nil : stripValid [] = [] := rfl

theorem stripValid_cons_valid {n : List Char} {rest : List (List Char)}
    (hv : validNumber (pyStrip n) = true) :
    stripValid (n :: rest) = pyStrip n :: stripValid rest := by
  simp [stripValid, List.filter_cons, hv]

theorem stripValid_cons_invalid {n : List Char} {rest : List (List Char)}
    (hv : validNumber (pyStrip n) = false) :
    stripValid (n :: rest) = stripValid rest := by
  simp [stripValid, List.filter_cons, hv]

/-- The final store of a batch is the initial store followed by one
record (with the shared submitter and timestamp) per added number. -/
theorem batchRun_db {u t : List Char} {nums : List (List Char)}
    {db : List ClientRecord} :
    (batchRun u t db nums).db =
      db ++ ((batchRun u t db nums).added_list).map
        (fun p => ⟨u, p, t⟩) := by
  induction nums generalizing db with
  | nil => simp [batchRun_nil]
  | cons numRaw rest ih =>
    by_cases hv : validNumber (pyStrip numRaw) = true
    · by_cases he : number_exists db (pyStrip numRaw) = true
      · rw [batchRun_cons_dup hv he]
        exact ih
      · have he2 : number_exists db (pyStrip numRaw) = false := by
          simpa using he
        rw [batchRun_cons_add hv he2]
        show (batchRun u t (db ++ [⟨u, pyStrip numRaw, t⟩]) rest).db = _
        rw [ih]
        simp
    · have hv2 : validNumber (pyStrip numRaw) = false := by simpa using hv
      rw [batchRun_cons_invalid hv2]
      exact ih

/-- Every number in a batch's added partition was absent from the
initial store and is a stripped, format-valid token of the batch. -/
theorem batchRun_added_mem {u t p : List Char} {nums : List (List Char)}
    {db : List ClientRecord}
    (h : p ∈ (batchRun u t db nums).added_list) :
    number_exists db p = false ∧ p ∈ stripValid nums := by
  induction nums generalizing db with
  | nil => simp [batchRun_nil] at h
  | cons numRaw rest ih =>
    by_cases hv : validNumber (pyStrip numRaw) = true
    · by_cases he : number_exists db (pyStrip numRaw) = true
      · rw [batchRun_cons_dup hv he] at h
        obtain ⟨h1, h2⟩ := ih h
        exact ⟨h1, by rw [stripValid_cons_valid hv]; simp [h2]⟩
      · have he2 : number_exists db (pyStrip numRaw) = false := by
          simpa using he
        rw [batchRun_cons_add hv he2] at h
        rcases List.mem_cons.mp h with rfl | h2
        · exact ⟨he2, by rw [stripValid_cons_valid hv]; simp⟩
        · obtain ⟨h1, h3⟩ := ih h2
          rw [number_exists_append, Bool.or_eq_false_iff] at h1
          exact ⟨h1.1, by rw [stripValid_cons_valid hv]; simp [h3]⟩
    · have hv2 : validNumber (pyStrip numRaw) = false := by simpa using hv
      rw [batchRun_cons_invalid hv2] at h
      obtain ⟨h1, h2⟩ := ih h
      exact ⟨h1, by rw [stripValid_cons_invalid hv2]; exact h2⟩

/-- No number appears twice in a batch's added partition. -/
theorem batchRun_added_nodup {u t : List Char} {nums : List (List Char)}
    {db : List ClientRecord} :
    (batchRun u t db nums).added_list.Nodup := by
  induction nums generalizing db with
  | nil => simp [batchRun_nil]
  | cons numRaw rest ih =>
    by_cases hv : validNumber (pyStrip numRaw) = true
    · by_cases he : number_exists db (pyStrip numRaw) = true
      · rw [batchRun_cons_dup hv he]
        exact ih
      · have he2 : number_exists db (pyStrip numRaw) = false := by
          simpa using he
        rw [batchRun_cons_add hv he2]
        refine List.nodup_cons.mpr ⟨?_, ih⟩
        intro hmem
        have h1 := (batchRun_added_mem hmem).1
        rw [number_exists_append, number_exists_singleton] at h1
        simp at h1
    · have hv2 : validNumber (pyStrip numRaw) = false := by simpa using hv
      rw [batchRun_cons_invalid hv2]
      exact ih

/-- Every stripped, format-valid token that was absent from the initial
store ends up in the added partition. -/
theorem batchRun_mem_added {u t p : List Char} {nums : List (List Char)}
    {db : List ClientRecord}
    (hab : number_exists db p = false) (hin : p ∈ stripValid nums) :
    p ∈ (batchRun u t db nums).added_list := by
  induction nums generalizing db with
  | nil => simp [stripValid_nil] at hin
  | cons numRaw rest ih =>
    by_cases hv : validNumber (pyStrip numRaw) = true
    · rw [stripValid_cons_valid hv] at hin
      by_cases he : number_exists db (pyStrip numRaw) = true
      · rw [batchRun_cons_dup hv he]
        rcases List.mem_cons.mp hin with rfl | h2
        · rw [hab] at he
          cases he
        · exact ih hab h2
      · have he2 : number_exists db (pyStrip numRaw) = false := by
          simpa using he
        rw [batchRun_cons_add hv he2]
        by_cases hpn : p = pyStrip numRaw
        · subst hpn
          exact List.mem_cons_self _ _
        · rcases List.mem_cons.mp hin with heq | h2
          · exact absurd heq hpn
          · have hab2 : number_exists (db ++ [⟨u, pyStrip numRaw, t⟩]) p
                = false := by
              rw [number_exists_append, number_exists_singleton]
              simp [hab]
              exact fun hc => hpn hc.symm
            exact List.mem_cons_of_mem _ (ih hab2 h2)
    · have hv2 : validNumber (pyStrip numRaw) = false := by simpa using hv
      rw [stripValid_cons_invalid hv2] at hin
      rw [batchRun_cons_invalid hv2]
      exact ih hab hin

/-- Each stripped, format-valid token of the batch is classified exactly
once, as added or as duplicate. -/
theorem batchRun_count {u t p : List Char} {nums : List (List Char)}
    {db : List ClientRecord} :
    (batchRun u t db nums).added_list.count p +
      (batchRun u t db nums).exists_list.count p =
      (stripValid nums).count p := by
  induction nums generalizing db with
  | nil => simp [batchRun_nil, stripValid_nil]
  | cons numRaw rest ih =>
    by_cases hv : validNumber (pyStrip numRaw) = true
    · by_cases he : number_exists db (pyStrip numRaw) = true
      · rw [batchRun_cons_dup hv he, stripValid_cons_valid hv]
        dsimp only
        rw [List.count_cons, List.count_cons]
        have h9 : (batchRun u t db rest).added_list.count p +
            (batchRun u t db rest).exists_list.count p =
            (stripValid rest).count p := ih
        omega
      · have he2 : number_exists db (pyStrip numRaw) = false := by
          simpa using he
        rw [batchRun_cons_add hv he2, stripValid_cons_valid hv]
        dsimp only
        rw [List.count_cons, List.count_cons]
        have h9 : (batchRun u t (db ++ [⟨u, pyStrip numRaw, t⟩]) rest
              ).added_list.count p +
            (batchRun u t (db ++ [⟨u, pyStrip numRaw, t⟩]) rest
              ).exists_list.count p =
            (stripValid rest).count p := ih
        omega
    · have hv2 : validNumber (pyStrip numRaw) = false := by simpa using hv
      rw [batchRun_cons_invalid hv2, stripValid_cons_invalid hv2]
      exact ih

/-- Case analysis of the state effect of one single-message ingestion:
either the store is unchanged, or the stripped text was format-valid and
absent and its record is appended. -/
theorem handle_message_cases (db : List ClientRecord) (u t text : List Char) :
    (handle_message db u t text).1 = db ∨
    (validNumber (pyStrip text) = true ∧
     number_exists db (pyStrip text) = false ∧
     (handle_message db u t text).1 = db ++ [⟨u, pyStrip text, t⟩]) := by
  by_cases hv : validNumber (pyStrip text) = true
  · by_cases he : number_exists db (pyStrip text) = true
    · left
      simp [handle_message, hv, he]
    · have he2 : number_exists db (pyStrip text) = false := by simpa using he
      right
      refine ⟨hv, he2, ?_⟩
      simp [handle_message, add_number, clientsInsert, hv, he2]
  · have hv2 : validNumber (pyStrip text) = false := by simpa using hv
    left
    simp [handle_message, hv2]

theorem phones_nodup_append {db : List ClientRecord} {q : List Char}
    {u t : List Char} (h : (phones db).Nodup)
    (hab : number_exists db q = false) :
    (phones (db ++ [⟨u, q, t⟩])).Nodup := by
  rw [phones_append]
  have hq : q ∉ phones db := fun hc => by
    rw [number_exists_iff.mpr hc] at hab
    cases hab
  simp only [phones, List.map_cons, List.map_nil]
  exact List.Nodup.append h (List.nodup_singleton q)
    (fun a ha hb => hq (by rwa [List.mem_singleton.mp hb] at ha))

theorem insertOrIgnore_nodup {db : List ClientRecord} {r : ClientRecord}
    (h : (phones db).Nodup) : (phones (insertOrIgnore db r)).Nodup := by
  by_cases he : number_exists db r.phone_number = true
  · rwa [insertOrIgnore_of_exists he]
  · have he2 : number_exists db r.phone_number = false := by simpa using he
    rw [insertOrIgnore_of_absent he2]
    exact phones_nodup_append h he2

theorem foldl_insertOrIgnore_nodup {rows db : List ClientRecord}
    (h : (phones db).Nodup) :
    (phones (rows.foldl insertOrIgnore db)).Nodup := by
  induction rows generalizing db with
  | nil => exact h
  | cons r rows ih =>
    rw [List.foldl_cons]
    exact ih (insertOrIgnore_nodup h)

/-! ## The claims -/

/-- C1: Uniqueness invariant — if the store holds no two records with the
same phone number, then it still holds no two such records after a
single-message ingestion, after a batch ingestion, and after a file
import. -/
theorem store_uniqueness_preserved (db : List ClientRecord)
    (u t text : List Char) (nums : List (List Char))
    (file : Option (List ClientRecord))
    (h : (phones db).Nodup) :
    (phones (handle_message db u t text).1).Nodup ∧
    (phones (batchRun u t db nums).db).Nodup ∧
    (phones (import_data file db).1).Nodup := by
  refine ⟨?_, ?_, ?_⟩
  · rcases handle_message_cases db u t text with hc | ⟨-, hab, hc⟩
    · rwa [hc]
    · rw [hc]
      exact phones_nodup_append h hab
  · rw [batchRun_db, phones_append]
    have hmapgen : ∀ l : List (List Char),
        phones (l.map (fun p => (⟨u, p, t⟩ : ClientRecord))) = l := by
      intro l
      induction l with
      | nil => rfl
      | cons a l ih =>
        simp only [phones, List.map_cons] at ih ⊢
        rw [ih]
    rw [hmapgen]
    refine List.Nodup.append h batchRun_added_nodup ?_
    intro a ha hmem
    have h1 := (batchRun_added_mem hmem).1
    rw [number_exists_iff.mpr ha] at h1
    cases h1
  · cases file with
    | none => exact h
    | some rows => exact foldl_insertOrIgnore_nodup h

/-- Witness for C1 at a concrete store and concrete operations. -/
theorem store_uniqueness_preserved_witness :
    (phones (handle_message [⟨['u'], ['+','1','2','3','4','5','6','7'], ['t']⟩]
        ['u'] ['t'] ['+','7','6','5','4','3','2','1']).1).Nodup ∧
    (phones (batchRun ['u'] ['t']
        [⟨['u'], ['+','1','2','3','4','5','6','7'], ['t']⟩]
        [['+','7','6','5','4','3','2','1']]).db).Nodup ∧
    (phones (import_data (some [⟨['v'], ['+','9','9','9','9','9','9','9'], ['s']⟩])
        [⟨['u'], ['+','1','2','3','4','5','6','7'], ['t']⟩]).1).Nodup :=
  store_uniqueness_preserved
    [⟨['u'], ['+','1','2','3','4','5','6','7'], ['t']⟩]
    ['u'] ['t'] ['+','7','6','5','4','3','2','1']
    [['+','7','6','5','4','3','2','1']]
    (some [⟨['v'], ['+','9','9','9','9','9','9','9'], ['s']⟩])
    (by decide)

/-- C3: the validator used by the ingestion pipeline accepts exactly the
strings made of a leading plus sign followed by 7 to 15 decimal digits
and nothing else. -/
theorem validator_matches_spec_regex (s : List Char) :
    validNumber s = specRegexMatch s := by
  match s with
  | [] => rfl
  | c :: rest =>
    simp only [validNumber, specRegexMatch, startsWithPlus, pyIsdigit,
      List.drop_succ_cons, List.drop_zero]
    cases rest with
    | nil => simp
    | cons d ds => simp

/-- C4 counterexample: inserting a fresh number through add_number does
persist the record, but the function's returned value is None, not the
boolean true that the claim says the caller receives. -/
theorem add_number_returns_no_bool :
    (add_number [] ['u'] ['+','1','2','3','4','5','6','7'] ['t']).1 =
      [⟨['u'], ['+','1','2','3','4','5','6','7'], ['t']⟩] ∧
    (add_number [] ['u'] ['+','1','2','3','4','5','6','7'] ['t']).2 ≠
      some true := by
  decide

/-- C4 amended: add_number has exactly the store effect of the spec's
insertIfAbsent (append when the phone number is absent, no-op when
present), but it returns None rather than a boolean; the boolean the
spec describes is computable from the store as the negation of the prior
existence check. -/
theorem add_number_insert_if_absent_effect (db : List ClientRecord)
    (u p t : List Char) :
    (add_number db u p t).1 = (specInsertIfAbsent db ⟨u, p, t⟩).1 ∧
    (add_number db u p t).2 = none ∧
    (specInsertIfAbsent db ⟨u, p, t⟩).2 = !(number_exists db p) := by
  cases h : number_exists db p <;>
    simp [add_number, specInsertIfAbsent, clientsInsert, h]

/-- C9: an import file that cannot be parsed into the expected columns
yields the single failure outcome and leaves the store exactly as it
was, while a parseable file yields the single success outcome. -/
theorem malformed_import_file_no_rows (db rows : List ClientRecord) :
    import_data none db = (db, false) ∧
    (import_data (some rows) db).2 = true := by
  exact ⟨rfl, rfl⟩

/-- C7: import is idempotent — re-importing any file immediately after a
first import leaves the record set exactly as the first import left it;
and importing the export of the current store adds no records. -/
theorem import_idempotent (file : Option (List ClientRecord))
    (db : List ClientRecord) :
    (import_data file (import_data file db).1).1 = (import_data file db).1 ∧
    (import_data (some (export_clients db)) db).1 = db := by
  constructor
  · cases file with
    | none => rfl
    | some rows =>
      show rows.foldl insertOrIgnore (rows.foldl insertOrIgnore db) =
        rows.foldl insertOrIgnore db
      exact foldl_insertOrIgnore_noop foldl_insertOrIgnore_mem
  · show (export_clients db).foldl insertOrIgnore db = db
    refine foldl_insertOrIgnore_noop ?_
    intro r hr
    exact number_exists_iff.mpr (List.mem_map.mpr ⟨r, hr, rfl⟩)

theorem formatInv_append {db l : List ClientRecord} :
    formatInv (db ++ l) = (formatInv db && formatInv l) := by
  simp [formatInv, List.all_append]

theorem stripValid_valid {p : List Char} {nums : List (List Char)}
    (h : p ∈ stripValid nums) : validNumber p = true :=
  (List.mem_filter.mp h).2

/-- C5: submitting a valid, absent number twice in a row yields the
added classification and persists the number on the first call and the
duplicate classification on the second. -/
theorem ingest_twice_added_then_duplicate (db : List ClientRecord)
    (u1 t1 u2 t2 p : List Char)
    (hv : validNumber p = true) (hab : number_exists db p = false) :
    handle_message db u1 t1 p = (db ++ [⟨u1, p, t1⟩], Outcome.added p) ∧
    handle_message (db ++ [⟨u1, p, t1⟩]) u2 t2 p =
      (db ++ [⟨u1, p, t1⟩], Outcome.duplicate p) := by
  refine ⟨handle_message_added hv hab, handle_message_duplicate hv ?_⟩
  rw [number_exists_append, number_exists_singleton]
  simp

/-- Witness for C5 at a concrete fresh number. -/
theorem ingest_twice_added_then_duplicate_witness :
    handle_message [] ['a'] ['t'] ['+','1','2','3','4','5','6','7'] =
      ([⟨['a'], ['+','1','2','3','4','5','6','7'], ['t']⟩],
        Outcome.added ['+','1','2','3','4','5','6','7']) ∧
    handle_message [⟨['a'], ['+','1','2','3','4','5','6','7'], ['t']⟩]
        ['b'] ['s'] ['+','1','2','3','4','5','6','7'] =
      ([⟨['a'], ['+','1','2','3','4','5','6','7'], ['t']⟩],
        Outcome.duplicate ['+','1','2','3','4','5','6','7']) :=
  ingest_twice_added_then_duplicate [] ['a'] ['t'] ['b'] ['s']
    ['+','1','2','3','4','5','6','7'] (by decide) (by decide)

/-- C6: in a batch, each stripped valid token is classified exactly once
as added or duplicate; a number enters the added partition exactly when
it is absent from the persisted store, and never more than once — so a
repeated number is added on its first occurrence only and classified
duplicate afterwards, the check seeing both the store and the numbers
added earlier in the batch. The last conjunct is the spec's concrete
example batch. -/
theorem batch_first_added_rest_duplicate (u t p : List Char)
    (db : List ClientRecord) (nums : List (List Char)) :
    (batchRun u t db nums).added_list.Nodup ∧
    (p ∈ (batchRun u t db nums).added_list ↔
      p ∈ stripValid nums ∧ number_exists db p = false) ∧
    ((batchRun u t db nums).added_list.count p +
      (batchRun u t db nums).exists_list.count p =
      (stripValid nums).count p) ∧
    batchRun ['u'] ['t'] []
        [['+','1','1','2','3','4','5','6','7','8','9','0'],
         ['+','1','1','2','3','4','5','6','7','8','9','0'],
         ['a','b','c']] =
      ⟨[⟨['u'], ['+','1','1','2','3','4','5','6','7','8','9','0'], ['t']⟩],
        [['+','1','1','2','3','4','5','6','7','8','9','0']],
        [['+','1','1','2','3','4','5','6','7','8','9','0']],
        [['a','b','c']]⟩ := by
  refine ⟨batchRun_added_nodup, ?_, batchRun_count, by decide⟩
  constructor
  · intro hm
    exact ⟨(batchRun_added_mem hm).2, (batchRun_added_mem hm).1⟩
  · intro hc
    exact batchRun_mem_added hc.2 hc.1

/-- C2 counterexample: starting from a store satisfying the format
invariant, importing a parseable file whose row has a malformed phone
number persists that row — import performs no validation — and the
resulting store violates the format rule while the import reports
success. -/
theorem import_breaks_format_invariant :
    formatInv [] = true ∧
    validNumber ['a','b','c'] = false ∧
    import_data (some [⟨['u'], ['a','b','c'], ['t']⟩]) [] =
      ([⟨['u'], ['a','b','c'], ['t']⟩], true) ∧
    formatInv (import_data (some [⟨['u'], ['a','b','c'], ['t']⟩]) []).1 =
      false := by
  decide

/-- C2 amended: single-message ingestion and batch ingestion validate
every number before persisting it, so they preserve the format
invariant; file import persists rows without validation and is excluded
from the invariant. -/
theorem format_invariant_except_import (db : List ClientRecord)
    (u t text : List Char) (nums : List (List Char))
    (h : formatInv db = true) :
    formatInv (handle_message db u t text).1 = true ∧
    formatInv (batchRun u t db nums).db = true := by
  constructor
  · rcases handle_message_cases db u t text with hc | ⟨hv, -, hc⟩
    · rwa [hc]
    · rw [hc, formatInv_append, h]
      simp [formatInv, hv]
  · rw [batchRun_db, formatInv_append, h]
    simp only [Bool.true_and]
    refine List.all_eq_true.mpr ?_
    intro r hr
    obtain ⟨q, hq, rfl⟩ := List.mem_map.mp hr
    exact stripValid_valid (batchRun_added_mem hq).2

/-- Witness for C2 amended at a concrete store and inputs. -/
theorem format_invariant_except_import_witness :
    formatInv (handle_message [] ['u'] ['t'] ['+','1','2','3','4','5','6','7']).1
      = true ∧
    formatInv (batchRun ['u'] ['t'] [] [['x'],
      ['+','7','6','5','4','3','2','1']]).db = true :=
  format_invariant_except_import [] ['u'] ['t']
    ['+','1','2','3','4','5','6','7']
    [['x'], ['+','7','6','5','4','3','2','1']] (by decide)

/-- C8 counterexample: importing a file with one new valid row and one
malformed row inserts both rows — the malformed row is persisted, not
skipped — and reports success. -/
theorem import_keeps_malformed_row :
    validNumber ['+','1','2','3','4','5','6','7','8'] = true ∧
    validNumber ['a','b','c'] = false ∧
    import_data (some [⟨['u'], ['+','1','2','3','4','5','6','7','8'], ['t']⟩,
        ⟨['v'], ['a','b','c'], ['t']⟩]) [] =
      ([⟨['u'], ['+','1','2','3','4','5','6','7','8'], ['t']⟩,
        ⟨['v'], ['a','b','c'], ['t']⟩], true) := by
  decide

/-- C8 amended: for an import file with one new valid row and one
malformed row (both phone numbers absent from the store), the import
appends both rows — no row is re-validated, so the malformed row is not
skipped — and reports overall success; only rows whose phone number
already exists are skipped. -/
theorem import_adds_valid_and_malformed (db : List ClientRecord)
    (v m : ClientRecord)
    (hv : validNumber v.phone_number = true)
    (hm : validNumber m.phone_number = false)
    (habv : number_exists db v.phone_number = false)
    (habm : number_exists db m.phone_number = false) :
    import_data (some [v, m]) db = (db ++ [v, m], true) := by
  have hne : (v.phone_number == m.phone_number) = false := by
    rw [beq_eq_false_iff_ne]
    intro hc
    rw [← hc, hv] at hm
    cases hm
  show ([v, m].foldl insertOrIgnore db, true) = _
  rw [List.foldl_cons, List.foldl_cons, List.foldl_nil,
    insertOrIgnore_of_absent habv]
  have habm2 : number_exists (db ++ [v]) m.phone_number = false := by
    rw [number_exists_append, number_exists_singleton, habm, hne]
    rfl
  rw [insertOrIgnore_of_absent habm2, List.append_assoc]
  rfl

/-- Witness for C8 amended at a concrete file. -/
theorem import_adds_valid_and_malformed_witness :
    import_data (some [⟨['u'], ['+','1','2','3','4','5','6','7','8'], ['t']⟩,
        ⟨['v'], ['a','b','c'], ['t']⟩]) [] =
      ([] ++ [⟨['u'], ['+','1','2','3','4','5','6','7','8'], ['t']⟩,
        ⟨['v'], ['a','b','c'], ['t']⟩], true) :=
  import_adds_valid_and_malformed []
    ⟨['u'], ['+','1','2','3','4','5','6','7','8'], ['t']⟩
    ⟨['v'], ['a','b','c'], ['t']⟩
    (by decide) (by decide) (by decide) (by decide)

/-- C10: both ingestion paths strip surrounding whitespace before
validating, so a valid number surrounded by whitespace is treated
exactly like its trimmed form, and the trimmed form is what is
persisted and echoed. -/
theorem ingestion_strips_whitespace (db : List ClientRecord)
    (u t p w1 w2 : List Char)
    (h1 : ∀ c ∈ w1, pySpace c = true) (h2 : ∀ c ∈ w2, pySpace c = true)
    (hv : validNumber p = true) :
    pyStrip (w1 ++ p ++ w2) = p ∧
    handle_message db u t (w1 ++ p ++ w2) = handle_message db u t p ∧
    batchRun u t db [w1 ++ p ++ w2] = batchRun u t db [p] ∧
    (number_exists db p = false →
      handle_message db u t (w1 ++ p ++ w2) =
        (db ++ [⟨u, p, t⟩], Outcome.added p)) := by
  have hs := pyStrip_sandwich h1 h2 hv
  have hid := pyStrip_valid hv
  refine ⟨hs, ?_, ?_, ?_⟩
  · simp only [handle_message, hs, hid]
  · simp only [batchRun, hs, hid]
  · intro hab
    calc handle_message db u t (w1 ++ p ++ w2)
        = handle_message db u t p := by simp only [handle_message, hs, hid]
      _ = (db ++ [⟨u, p, t⟩], Outcome.added p) := handle_message_added hv hab

/-- Witness for C10 at a concrete whitespace-surrounded number. -/
theorem ingestion_strips_whitespace_witness :
    pyStrip ([' ', ' '] ++ ['+','1','2','3','4','5','6','7'] ++ ['\n']) =
      ['+','1','2','3','4','5','6','7'] ∧
    handle_message [] ['u'] ['t']
        ([' ', ' '] ++ ['+','1','2','3','4','5','6','7'] ++ ['\n']) =
      handle_message [] ['u'] ['t'] ['+','1','2','3','4','5','6','7'] ∧
    batchRun ['u'] ['t'] []
        [[' ', ' '] ++ ['+','1','2','3','4','5','6','7'] ++ ['\n']] =
      batchRun ['u'] ['t'] [] [['+','1','2','3','4','5','6','7']] ∧
    handle_message [] ['u'] ['t']
        ([' ', ' '] ++ ['+','1','2','3','4','5','6','7'] ++ ['\n']) =
      ([⟨['u'], ['+','1','2','3','4','5','6','7'], ['t']⟩],
        Outcome.added ['+','1','2','3','4','5','6','7']) := by
  have h := ingestion_strips_whitespace [] ['u'] ['t']
    ['+','1','2','3','4','5','6','7'] [' ', ' '] ['\n']
    (by decide) (by decide) (by decide)
  exact ⟨h.1, h.2.1, h.2.2.1, h.2.2.2 (by decide)⟩

end MyBot
